import Mathlib

set_option maxRecDepth 4000

/-!
Shallow embedding of the claimtrie RPC core of `src/rpc/claimtrie.cpp`
(lbrycrd): the ranking engine (`seqSort`, `indexOf`, amount reporting),
the identifier resolver (`getClaimById` in both exact and scanning form,
`ParseClaimtrieId`, the `getclaimbyid` pipeline), the rewind engine
(`RollBackTo`), and the index-selection behavior of the by-bid / by-seq
RPC entry points.

Strings (names, hex-encoded 160-bit identifiers) are modelled as `List Char`;
amounts (`CAmount`, an int64 in the source) as `Int`; heights and output
indices as `Nat`.
-/

namespace Claimtrie

/-- Character strings of the source (`std::string`), as lists of characters. -/
abbrev Chars := List Char

/-- `CAmount` (int64 in the source). -/
abbrev CAmount := Int

/-- `COutPoint`: transaction reference plus output index `n`.
The txid hash is abstracted to a `Nat`. -/
structure COutPoint where
  hash : Nat
  n : Nat
deriving DecidableEq, Repr

/-- `CClaimValue` as used by this file: identifier (canonical 40-char hex form
of the uint160, as produced by `GetHex`), outpoint, amount, registration
height `nHeight` and effective height `nValidAtHeight`. -/
structure CClaimValue where
  claimId : Chars
  outPoint : COutPoint
  nAmount : CAmount
  nHeight : Nat
  nValidAtHeight : Nat
deriving DecidableEq, Repr

/-- `CSupportValue`: a support for the claim with `supportedClaimId`. -/
structure CSupportValue where
  supportedClaimId : Chars
  outPoint : COutPoint
  nAmount : CAmount
  nHeight : Nat
  nValidAtHeight : Nat
deriving DecidableEq, Repr

/-- `CClaimNsupports`: one claim with its matched supports and the
registry-maintained effective amount. -/
structure CClaimNsupports where
  claim : CClaimValue
  effectiveAmount : CAmount
  supports : List CSupportValue
deriving DecidableEq, Repr

instance : Inhabited CClaimNsupports :=
  ⟨⟨⟨[], ⟨0, 0⟩, 0, 0, 0⟩, 0, []⟩⟩

/-- `amountToClaim` (claimtrie.cpp:248-254): the claim's own amount plus the
amounts of all linked supports, accumulated in loop order. -/
def amountToClaim (claimNsupports : CClaimNsupports) : CAmount :=
  claimNsupports.supports.foldl (fun fullAmount support => fullAmount + support.nAmount)
    claimNsupports.claim.nAmount

/-- The amount-related fields of the JSON object built by
`claimAndSupportsToJSON` (claimtrie.cpp:256-275): the effective amount is
always emitted, the pending amount only conditionally. -/
structure ClaimSupportsJson where
  effectiveAmount : CAmount
  pendingAmount : Option CAmount
deriving DecidableEq, Repr

/-- `claimAndSupportsToJSON` (claimtrie.cpp:256-275), restricted to its amount
fields: pushes `T_EFFECTIVEAMOUNT` unconditionally, and pushes the full
amount as `T_PENDINGAMOUNT` whenever it exceeds the effective amount. -/
def claimAndSupportsToJSON (claimNsupports : CClaimNsupports) : ClaimSupportsJson :=
  let fullAmount := amountToClaim claimNsupports
  { effectiveAmount := claimNsupports.effectiveAmount
    pendingAmount :=
      if claimNsupports.effectiveAmount < fullAmount then some fullAmount else none }

/-- The strict comparator passed to `std::sort` inside `seqSort`
(claimtrie.cpp:177-181): lexicographic on (`nHeight`, `outPoint.n`). -/
def seqSortLt (lhs rhs : CClaimNsupports) : Bool :=
  decide (lhs.claim.nHeight < rhs.claim.nHeight) ||
    (lhs.claim.nHeight == rhs.claim.nHeight &&
      decide (lhs.claim.outPoint.n < rhs.claim.outPoint.n))

/-- `seqSort` (claimtrie.cpp:173-184): sorts a copy of the registry-supplied
bid-ordered list with the comparator above; the sort itself is modelled by
`List.mergeSort` on the non-strict complement of the comparator. -/
def seqSort (source : List CClaimNsupports) : List CClaimNsupports :=
  source.mergeSort (fun lhs rhs => !seqSortLt rhs lhs)

/-- `indexOf` (claimtrie.cpp:186-193): position of the first entry carrying
`claimId` (`std::find_if` followed by `std::distance`); the source asserts
presence, and like `std::distance(begin, end)` this yields the length when
the identifier is absent. -/
def indexOf (source : List CClaimNsupports) (claimId : Chars) : Nat :=
  source.findIdx (fun claimNsupports => claimNsupports.claim.claimId == claimId)

/-- One entry of the claims array built by `getclaimsforname`
(claimtrie.cpp:430-439): the claim with its reported bid and sequence
positions. -/
structure RankedClaim where
  claimNsupports : CClaimNsupports
  bid : Nat
  seq : Nat
deriving DecidableEq, Repr

/-- The claims-array loop of `getclaimsforname` (claimtrie.cpp:430-439):
iterates the registry-returned list in received order, reporting position
`i` as the bid and the position in `seqSort`'s output as the sequence. -/
def getclaimsforname (claimsNsupports : List CClaimNsupports) : List RankedClaim :=
  let seqOrder := seqSort claimsNsupports
  claimsNsupports.enum.map fun p =>
    ⟨p.2, p.1, indexOf seqOrder p.2.claim.claimId⟩

/-- Lowercasing of one hex digit, as effected by `uint160::SetHex` (which
parses `A`-`F` and `a`-`f` alike) followed by `GetHex` (which prints
lowercase). -/
def hexCharLower (c : Char) : Char :=
  if 65 ≤ c.toNat ∧ c.toNat ≤ 70 then Char.ofNat (c.toNat + 32) else c

/-- `uint160S` (claimtrie.cpp:24-29): parse a hex string of at most 40 digits
into a uint160; the value is represented by its canonical `GetHex` form,
i.e. lowercased and left-padded with `0` to 40 characters. -/
def uint160S (s : Chars) : Chars :=
  List.replicate (40 - s.length) '0' ++ s.map hexCharLower

/-- `uint160::IsNull` on the canonical hex form: all digits zero. -/
def isNullUint160 (s : Chars) : Bool :=
  s.all (· == '0')

/-- `CClaimIndexElement`: the value stored in the identifier-keyed index,
holding the owning name and the claim record. -/
structure CClaimIndexElement where
  name : Chars
  claim : CClaimValue
deriving DecidableEq, Repr

/-- One record of the on-disk trie database, as seen by the iterator of the
scanning `getClaimById`: either a `CLAIM_BY_ID` index entry (keyed by the
canonical hex form of the uint160) or a record of some other kind, which the
scan skips. -/
inductive DBEntry where
  | claimIndex (key : Chars) (element : CClaimIndexElement)
  | other
deriving DecidableEq, Repr

/-- The database in iterator order. -/
abbrev DB := List DBEntry

/-- `pclaimTrie->db->Read(std::make_pair(CLAIM_BY_ID, claimId), element)`:
point lookup of the first index entry under exactly the given key. -/
def dbRead : DB → Chars → Option CClaimIndexElement
  | [], _ => none
  | .claimIndex key element :: rest, claimId =>
      if key == claimId then some element else dbRead rest claimId
  | .other :: rest, claimId => dbRead rest claimId

/-- The exact-identifier `getClaimById` (claimtrie.cpp:127-142): a null
identifier resolves to nothing without touching the index; otherwise one
point read, accepted only if the stored claim carries the requested
identifier. The second component counts point reads performed. -/
def getClaimById (db : DB) (claimId : Chars) : Option (Chars × CClaimValue) × Nat :=
  if isNullUint160 claimId then (none, 0)
  else
    match dbRead db claimId with
    | none => (none, 1)
    | some element =>
        (if element.claim.claimId == claimId then some (element.name, element.claim) else none, 1)

/-- `key.second.GetHex().find(partialId) != 0` negated: whether the canonical
hex form of the key begins with the queried digits. -/
def startsWithChars : Chars → Chars → Bool
  | _, [] => true
  | [], _ :: _ => false
  | c :: cs, p :: ps => c == p && startsWithChars cs ps

/-- The iterator loop of the scanning `getClaimById` (claimtrie.cpp:152-169):
visits entries in index order, skipping non-index records, keys that do not
begin with the queried digits, and (when a name is already pinned) elements
under a different name; stops at the first accepted element. The second
component counts the entries visited. -/
def getClaimByIdScan : DB → Chars → Chars → Option (Chars × CClaimValue) × Nat
  | [], _, _ => (none, 0)
  | .other :: rest, pid, name =>
      let r := getClaimByIdScan rest pid name
      (r.1, r.2 + 1)
  | .claimIndex key element :: rest, pid, name =>
      if !startsWithChars key pid then
        let r := getClaimByIdScan rest pid name
        (r.1, r.2 + 1)
      else if !name.isEmpty && name != element.name then
        let r := getClaimByIdScan rest pid name
        (r.1, r.2 + 1)
      else
        (some (element.name, element.claim), 1)

/-- The scanning `getClaimById` overload (claimtrie.cpp:145-171): an empty
query resolves to nothing without touching the index, otherwise the full
scan runs. -/
def getClaimByIdStr (db : DB) (pid : Chars) (name : Chars) :
    Option (Chars × CClaimValue) × Nat :=
  if pid.isEmpty then (none, 0) else getClaimByIdScan db pid name

/-- Hexadecimal digit test (either case). -/
def isHexDigitChar (c : Char) : Bool :=
  (48 ≤ c.toNat && c.toNat ≤ 57) || (97 ≤ c.toNat && c.toNat ≤ 102) ||
    (65 ≤ c.toNat && c.toNat ≤ 70)

/-- Modelled from the spec: `IsHexNumber` (util/strencodings, not under
`src/`) as described by the specification's identifier-validation rules — a
non-empty, even-length string of hexadecimal digits (identifiers are
byte-aligned, so odd lengths are rejected). -/
def IsHexNumber (s : Chars) : Bool :=
  !s.isEmpty && s.all isHexDigitChar && s.length % 2 == 0

/-- The failure modes surfaced by the RPC layer of this file. -/
inductive RpcError where
  | invalidParameter
deriving DecidableEq, Repr

/-- `ParseClaimtrieId` (claimtrie.cpp:31-38): reject non-hex input, then
reject input longer than 40 characters; otherwise hand the string back. -/
def ParseClaimtrieId (v : Chars) : Except RpcError Chars :=
  if !IsHexNumber v then .error .invalidParameter
  else if decide (40 < v.length) then .error .invalidParameter
  else .ok v

/-- The index accesses performed while resolving one identifier: the final
resolution result, the number of point reads, and the number of iterator
entries visited by the fallback scan. -/
structure IdLookupTrace where
  result : Option (Chars × CClaimValue)
  pointReads : Nat
  scanVisited : Nat
deriving DecidableEq, Repr

/-- The lookup phase of `getclaimbyid` (claimtrie.cpp:553-557): for a
40-character identifier try the exact point lookup first; on any miss
(including every shorter identifier) fall back to the scanning overload,
with no name pinned. -/
def getclaimbyidLookup (db : DB) (claimId : Chars) : IdLookupTrace :=
  let exact :=
    if claimId.length == 40 then getClaimById db (uint160S claimId) else (none, 0)
  match exact.1 with
  | some r => ⟨some r, exact.2, 0⟩
  | none =>
      let scan := getClaimByIdStr db claimId []
      ⟨scan.1, exact.2, scan.2⟩

/-- The `getclaimbyid` RPC (claimtrie.cpp:539-575), up to the point where the
resolved name is handed to the ranking engine: identifier validation
(`ParseClaimtrieId`, then the minimum-length check) strictly precedes any
index access. -/
def getclaimbyid (db : DB) (input : Chars) : Except RpcError IdLookupTrace :=
  match ParseClaimtrieId input with
  | .error e => .error e
  | .ok claimId =>
      if decide (claimId.length < 3) then .error .invalidParameter
      else .ok (getclaimbyidLookup db claimId)

/-- `MAX_RPC_BLOCK_DECREMENTS` (claimtrie.cpp:54). -/
def MAX_RPC_BLOCK_DECREMENTS : Nat := 500

/-- The environment one disconnect iteration of `RollBackTo` runs in: whether
the thread-interruption point fires, whether the block reads back from disk,
whether the memory budget still holds, whether shutdown was requested, and
whether `DisconnectBlock` succeeds. -/
structure StepEnv where
  interrupted : Bool
  readOk : Bool
  memOk : Bool
  shutdown : Bool
  disconnectOk : Bool
deriving DecidableEq, Repr

/-- A step environment in which every check passes. -/
def goodStep : StepEnv :=
  ⟨false, true, true, false, true⟩

/-- The failure causes of `RollBackTo`. -/
inductive RewindError where
  | tooDeep
  | interrupted
  | blockUnavailable
  | resourceExhausted
  | cancelled
  | disconnectFailed
deriving DecidableEq, Repr

/-- Success, or a thrown `JSONRPCError`, of one `RollBackTo` call. -/
inductive RewindResult where
  | ok
  | error (e : RewindError)
deriving DecidableEq, Repr

/-- What a `RollBackTo` call did: its result, how many blocks it
disconnected, and how many block reads it attempted. -/
structure RollBackOutcome where
  result : RewindResult
  disconnects : Nat
  reads : Nat
deriving DecidableEq, Repr

/-- The disconnect loop of `RollBackTo` (claimtrie.cpp:68-83), one iteration
per block between tip and target, checks in source order: interruption
point, block read, memory budget, shutdown poll, block disconnect. -/
def rollBackLoop (env : Nat → StepEnv) : Nat → Nat → Nat → RollBackOutcome
  | 0, d, r => ⟨.ok, d, r⟩
  | n + 1, d, r =>
      let s := env d
      if s.interrupted then ⟨.error .interrupted, d, r⟩
      else if !s.readOk then ⟨.error .blockUnavailable, d, r + 1⟩
      else if !s.memOk then ⟨.error .resourceExhausted, d, r + 1⟩
      else if s.shutdown then ⟨.error .cancelled, d, r + 1⟩
      else if !s.disconnectOk then ⟨.error .disconnectFailed, d, r + 1⟩
      else rollBackLoop env n (d + 1) (r + 1)

/-- `RollBackTo` (claimtrie.cpp:57-85): refuse outright when the tip is more
than `MAX_RPC_BLOCK_DECREMENTS` blocks above the target, otherwise run the
disconnect loop once per intervening block. -/
def RollBackTo (tipHeight targetHeight : Nat) (env : Nat → StepEnv) : RollBackOutcome :=
  if decide (targetHeight + MAX_RPC_BLOCK_DECREMENTS < tipHeight) then
    ⟨.error .tooDeep, 0, 0⟩
  else rollBackLoop env (tipHeight - targetHeight) 0 0

/-- The claim-selection predicate handed to `getProofForName`. -/
inductive ProofPred where
  | engineDefault
  | eqId (claimId : Chars)
deriving DecidableEq, Repr

/-- The observable outcome of the selection phase of the by-bid / by-seq RPC
entry points: a parameter error, the empty object (out-of-range claim
selection), the selected claim with its reported bid and sequence positions,
the empty array (out-of-range proof selection), or a proof request carrying
the prepared predicate. -/
inductive RpcResult where
  | rpcError
  | emptyObj
  | claimInfo (claimNsupports : CClaimNsupports) (bid : Nat) (seq : Nat)
  | emptyArr
  | proofReq (pred : ProofPred)
deriving DecidableEq, Repr

/-- The selection core of `getclaimbybid` (claimtrie.cpp:451-492): reject a
negative bid, yield the empty object when the bid is at or past the claim
count, otherwise report the claim at that position of the registry list
together with its sequence position. -/
def getclaimbybid (claimsNsupports : List CClaimNsupports) (bid : Int) : RpcResult :=
  if bid < 0 then .rpcError
  else if claimsNsupports.length ≤ bid.toNat then .emptyObj
  else
    let claimNsupports := claimsNsupports.getD bid.toNat default
    let seq :=
      if 1 < claimsNsupports.length then
        indexOf (seqSort claimsNsupports) claimNsupports.claim.claimId
      else 0
    .claimInfo claimNsupports bid.toNat seq

/-- The selection core of `getclaimbyseq` (claimtrie.cpp:494-537): reject a
negative sequence index, yield the empty object when it is at or past the
claim count, otherwise report the claim at that position of the sequence
order together with its bid position. -/
def getclaimbyseq (claimsNsupports : List CClaimNsupports) (seq : Int) : RpcResult :=
  if seq < 0 then .rpcError
  else if claimsNsupports.length ≤ seq.toNat then .emptyObj
  else if claimsNsupports.length = 1 then
    .claimInfo (claimsNsupports.getD 0 default) 0 seq.toNat
  else
    let claimNsupports := (seqSort claimsNsupports).getD seq.toNat default
    .claimInfo claimNsupports (indexOf claimsNsupports claimNsupports.claim.claimId) seq.toNat

/-- The selection core of `getclaimproofbybid` (claimtrie.cpp:771-809):
reject a negative bid; for bid zero skip the claim list entirely and request
the proof with the engine-default predicate; for a positive bid consult the
claim list, yielding the empty array when out of range and an
identifier-equality predicate otherwise. -/
def getclaimproofbybid (claimsNsupports : List CClaimNsupports) (bid : Int) : RpcResult :=
  if bid < 0 then .rpcError
  else if bid = 0 then .proofReq .engineDefault
  else if claimsNsupports.length ≤ bid.toNat then .emptyArr
  else .proofReq (.eqId (claimsNsupports.getD bid.toNat default).claim.claimId)

/-- The selection core of `getclaimproofbyseq` (claimtrie.cpp:811-848):
reject a negative sequence index, yield the empty array when it is at or
past the claim count, otherwise build an identifier-equality predicate from
the claim at that position of the sequence order. -/
def getclaimproofbyseq (claimsNsupports : List CClaimNsupports) (seq : Int) : RpcResult :=
  if seq < 0 then .rpcError
  else if claimsNsupports.length ≤ seq.toNat then .emptyArr
  else
    let claimNsupports :=
      if claimsNsupports.length = 1 then claimsNsupports.getD 0 default
      else (seqSort claimsNsupports).getD seq.toNat default
    .proofReq (.eqId claimNsupports.claim.claimId)

/-- Lowercase hexadecimal digit test: the alphabet of `GetHex` output. -/
def isLowerHexChar (c : Char) : Bool :=
  (48 ≤ c.toNat && c.toNat ≤ 57) || (97 ≤ c.toNat && c.toNat ≤ 102)

/-- Well-formedness of one database record: a claim-index entry is keyed by
the canonical (40-character lowercase hex) form of its element's claim
identifier, exactly as the index writer stores it. -/
def entryWF : DBEntry → Bool
  | .claimIndex key element =>
      key.length == 40 && element.claim.claimId == key && key.all isLowerHexChar
  | .other => true

/-- Well-formedness of the whole identifier index. -/
def ClaimIndexWF (db : DB) : Prop :=
  ∀ e ∈ db, entryWF e = true

/-- Whether the scanning lookup accepts a record's key for a query: it is a
claim-index entry whose key begins with the queried digits. -/
def entryMatch (pid : Chars) : DBEntry → Bool
  | .claimIndex key _ => startsWithChars key pid
  | .other => false

/-- The name and claim a record resolves to. -/
def entryResult : DBEntry → Option (Chars × CClaimValue)
  | .claimIndex _ element => some (element.name, element.claim)
  | .other => none

/-! Concrete inputs used by the witnesses and counterexamples below. -/

/-- A 40-character identifier present in `pointDb`. -/
def presentId : Chars := List.replicate 40 'a'

/-- A 40-character identifier absent from `pointDb`. -/
def absentId : Chars := List.replicate 40 'b'

/-- A one-entry identifier index holding `presentId`. -/
def pointDb : DB :=
  [.claimIndex presentId ⟨['n'], ⟨presentId, ⟨1, 0⟩, 5, 3, 4⟩⟩]

/-- First identifier under the prefix `abc`, owned by name `x`. -/
def ambId1 : Chars := 'a' :: 'b' :: 'c' :: List.replicate 37 '1'

/-- Second identifier under the prefix `abc`, owned by name `y`. -/
def ambId2 : Chars := 'a' :: 'b' :: 'c' :: List.replicate 37 '2'

/-- An index in which two entries under distinct names share the queried
prefix, preceded by a record of another kind. -/
def ambiguousDb : DB :=
  [.other,
   .claimIndex ambId1 ⟨['x'], ⟨ambId1, ⟨1, 0⟩, 5, 3, 4⟩⟩,
   .claimIndex ambId2 ⟨['y'], ⟨ambId2, ⟨2, 1⟩, 6, 3, 4⟩⟩]

/-- A claim of amount 100, effective amount 100, with two linked supports of
30 and 20 — the worked example of the specification's pending-amount rule. -/
def pendingExample : CClaimNsupports :=
  { claim := ⟨['0', '1'], ⟨1, 0⟩, 100, 10, 12⟩
    effectiveAmount := 100
    supports :=
      [⟨['0', '1'], ⟨2, 0⟩, 30, 11, 13⟩, ⟨['0', '1'], ⟨3, 0⟩, 20, 11, 13⟩] }

/-- A claim registered at height 1 that becomes effective only at height 10. -/
def lateValidClaim : CClaimNsupports :=
  ⟨⟨['x'], ⟨1, 0⟩, 1, 1, 10⟩, 1, []⟩

/-- A claim registered at height 2 that is already effective at height 5. -/
def earlyValidClaim : CClaimNsupports :=
  ⟨⟨['y'], ⟨2, 1⟩, 1, 2, 5⟩, 1, []⟩

/-- Claim A of the specification's sequence-order example: height 99. -/
def seqClaimA : CClaimNsupports :=
  ⟨⟨['a'], ⟨1, 7⟩, 1, 99, 99⟩, 1, []⟩

/-- Claim B of the specification's sequence-order example: height 100,
output index 0. -/
def seqClaimB : CClaimNsupports :=
  ⟨⟨['b'], ⟨2, 0⟩, 1, 100, 100⟩, 1, []⟩

/-- Claim C of the specification's sequence-order example: height 100,
output index 2. -/
def seqClaimC : CClaimNsupports :=
  ⟨⟨['c'], ⟨3, 2⟩, 1, 100, 100⟩, 1, []⟩

/-- Two claims with distinct identifiers, for the index round-trip witness. -/
def roundTripExample : List CClaimNsupports :=
  [⟨⟨['d'], ⟨1, 0⟩, 1, 100, 100⟩, 1, []⟩, ⟨⟨['e'], ⟨2, 1⟩, 1, 99, 99⟩, 1, []⟩]

/-! Theorems. -/

/-- `amountToClaim` computes the claim's own amount plus the sum of the
linked support amounts. -/
theorem amountToClaim_eq (claimNsupports : CClaimNsupports) :
    amountToClaim claimNsupports =
      claimNsupports.claim.nAmount + (claimNsupports.supports.map (·.nAmount)).sum := by
  unfold amountToClaim
  generalize claimNsupports.claim.nAmount = init
  induction claimNsupports.supports generalizing init with
  | nil => simp
  | cons s rest ih => simp only [List.foldl_cons, List.map_cons, List.sum_cons, ih]; ring

/-- C1, counterexample: for the claim with amount 100, effective amount 100
and supports 30 and 20, the emitted pending amount is the full amount 150,
not the difference 50 = total − effective that the claim requires. -/
theorem pendingAmount_counterexample :
    (claimAndSupportsToJSON pendingExample).pendingAmount = some 150 ∧
    ¬ (claimAndSupportsToJSON pendingExample).pendingAmount =
        some (pendingExample.effectiveAmount + (pendingExample.supports.map (·.nAmount)).sum
          - pendingExample.effectiveAmount) := by
  constructor
  · decide
  · decide

/-- C1, amended: the pending-amount field is present iff the claim's own
amount plus the sum of all linked support amounts strictly exceeds the
effective amount, and when present its value equals that total itself (the
would-be amount), not the difference. -/
theorem pendingAmount_amended (claimNsupports : CClaimNsupports) :
    ((claimAndSupportsToJSON claimNsupports).pendingAmount.isSome ↔
      claimNsupports.effectiveAmount <
        claimNsupports.claim.nAmount + (claimNsupports.supports.map (·.nAmount)).sum) ∧
    ∀ v, (claimAndSupportsToJSON claimNsupports).pendingAmount = some v →
      v = claimNsupports.claim.nAmount + (claimNsupports.supports.map (·.nAmount)).sum := by
  have h := amountToClaim_eq claimNsupports
  unfold claimAndSupportsToJSON
  rw [h]
  by_cases hlt : claimNsupports.effectiveAmount <
      claimNsupports.claim.nAmount + (claimNsupports.supports.map (·.nAmount)).sum
  · simp [hlt]
  · simp [hlt]

/-- C1, witness for the amended theorem at the worked example. -/
theorem pendingAmount_amended_witness :
    (claimAndSupportsToJSON pendingExample).pendingAmount.isSome ∧
    (150 : CAmount) =
      pendingExample.claim.nAmount + (pendingExample.supports.map (·.nAmount)).sum :=
  ⟨(pendingAmount_amended pendingExample).1.mpr (by decide),
   (pendingAmount_amended pendingExample).2 150 (by decide)⟩

/-- The comparator of `seqSort`, read back as a proposition. -/
theorem seqSortLt_iff (a b : CClaimNsupports) :
    seqSortLt a b = true ↔
      (a.claim.nHeight < b.claim.nHeight ∨
        (a.claim.nHeight = b.claim.nHeight ∧ a.claim.outPoint.n < b.claim.outPoint.n)) := by
  simp [seqSortLt]

/-- The non-strict complement of the comparator is transitive. -/
theorem seqSortLe_trans (a b c : CClaimNsupports)
    (hab : (!seqSortLt b a) = true) (hbc : (!seqSortLt c b) = true) :
    (!seqSortLt c a) = true := by
  simp only [Bool.not_eq_true', ← Bool.not_eq_true, seqSortLt_iff] at hab hbc ⊢
  push_neg at hab hbc ⊢
  omega

/-- The non-strict complement of the comparator is total. -/
theorem seqSortLe_total (a b : CClaimNsupports) :
    ((!seqSortLt b a) || (!seqSortLt a b)) = true := by
  simp only [Bool.or_eq_true, Bool.not_eq_true', ← Bool.not_eq_true, seqSortLt_iff]
  push_neg
  omega

/-- C2, counterexample: `seqSort` orders by registration height, not by the
effective (valid-at) height the claim names — a claim effective at height 10
but registered at height 1 is placed before one effective at height 5 but
registered at height 2, so the output is not ordered by valid-at height. -/
theorem seqSort_counterexample :
    seqSort [earlyValidClaim, lateValidClaim] = [lateValidClaim, earlyValidClaim] ∧
    earlyValidClaim.claim.nValidAtHeight < lateValidClaim.claim.nValidAtHeight := by
  constructor
  · simp [seqSort, List.mergeSort, seqSortLt, lateValidClaim, earlyValidClaim]
  · decide

/-- C2, amended: `seqSort` returns a permutation of its input ordered by the
registration height (`nHeight`) ascending with ties broken by output index
ascending; in particular for claims A(height 99), B(height 100, output 0),
C(height 100, output 2) given in bid order [B, C, A] it returns [A, B, C]. -/
theorem seqSort_amended (source : List CClaimNsupports) :
    (seqSort source).Perm source ∧
    (seqSort source).Pairwise (fun a b =>
      a.claim.nHeight < b.claim.nHeight ∨
        (a.claim.nHeight = b.claim.nHeight ∧ a.claim.outPoint.n ≤ b.claim.outPoint.n)) ∧
    seqSort [seqClaimB, seqClaimC, seqClaimA] = [seqClaimA, seqClaimB, seqClaimC] := by
  refine ⟨List.mergeSort_perm source _, ?_, ?_⟩
  · have hs := @List.sorted_mergeSort CClaimNsupports (fun lhs rhs => !seqSortLt rhs lhs)
      seqSortLe_trans seqSortLe_total source
    refine hs.imp ?_
    intro a b h
    simp only [Bool.not_eq_true', ← Bool.not_eq_true, seqSortLt_iff] at h
    push_neg at h
    omega
  · simp [seqSort, List.mergeSort, seqSortLt, seqClaimA, seqClaimB, seqClaimC]

/-- Under an all-good environment the disconnect loop runs to completion,
disconnecting and reading once per remaining block. -/
theorem rollBackLoop_good (env : Nat → StepEnv) (hgood : ∀ i, env i = goodStep) :
    ∀ n d r, rollBackLoop env n d r = ⟨.ok, d + n, r + n⟩ := by
  intro n
  induction n with
  | zero => intro d r; rfl
  | succ n ih =>
      intro d r
      have hstep : rollBackLoop env (n + 1) d r = rollBackLoop env n (d + 1) (r + 1) := by
        simp [rollBackLoop, hgood d, goodStep]
      have h2 : d + 1 + n = d + (n + 1) := by omega
      have h3 : r + 1 + n = r + (n + 1) := by omega
      rw [hstep, ih (d + 1) (r + 1), h2, h3]

/-- The disconnect loop never reports the too-deep error. -/
theorem rollBackLoop_ne_tooDeep (env : Nat → StepEnv) :
    ∀ n d r, (rollBackLoop env n d r).result ≠ .error .tooDeep := by
  intro n
  induction n with
  | zero => intro d r; simp [rollBackLoop]
  | succ n ih =>
      intro d r
      simp only [rollBackLoop]
      split
      · simp
      · split
        · simp
        · split
          · simp
          · split
            · simp
            · split
              · simp
              · exact ih (d + 1) (r + 1)

/-- C3: when the tip is more than 500 blocks above the target, `RollBackTo`
fails with the too-deep error having performed zero disconnect steps and
zero block reads; at exactly 500 blocks the depth check passes — the
too-deep error cannot occur — and with every per-step resource and
cancellation check passing all 500 blocks are disconnected. -/
theorem RollBackTo_depthBound (tip target : Nat) (env : Nat → StepEnv) :
    (target + MAX_RPC_BLOCK_DECREMENTS < tip →
      RollBackTo tip target env = ⟨.error .tooDeep, 0, 0⟩) ∧
    (tip = target + MAX_RPC_BLOCK_DECREMENTS →
      (RollBackTo tip target env).result ≠ .error .tooDeep ∧
      ((∀ i, env i = goodStep) →
        RollBackTo tip target env =
          ⟨.ok, MAX_RPC_BLOCK_DECREMENTS, MAX_RPC_BLOCK_DECREMENTS⟩)) := by
  constructor
  · intro hdeep
    have h : decide (target + MAX_RPC_BLOCK_DECREMENTS < tip) = true := decide_eq_true hdeep
    unfold RollBackTo
    rw [h]
    simp
  · intro htip
    have hnot : ¬ (target + MAX_RPC_BLOCK_DECREMENTS < tip) := by omega
    have hdiff : tip - target = MAX_RPC_BLOCK_DECREMENTS := by omega
    constructor
    · simp only [RollBackTo, decide_eq_false hnot, Bool.false_eq_true, if_false, hdiff]
      exact rollBackLoop_ne_tooDeep env MAX_RPC_BLOCK_DECREMENTS 0 0
    · intro hgood
      simp only [RollBackTo, decide_eq_false hnot, Bool.false_eq_true, if_false, hdiff]
      simpa using rollBackLoop_good env hgood MAX_RPC_BLOCK_DECREMENTS 0 0

/-- C3, witness: rewinding 501 blocks fails too-deep with nothing read or
disconnected; rewinding exactly 500 under passing checks disconnects all
500. -/
theorem RollBackTo_depthBound_witness :
    RollBackTo 501 0 (fun _ => goodStep) = ⟨.error .tooDeep, 0, 0⟩ ∧
    RollBackTo 500 0 (fun _ => goodStep) = ⟨.ok, 500, 500⟩ :=
  ⟨(RollBackTo_depthBound 501 0 (fun _ => goodStep)).1 (by decide),
   ((RollBackTo_depthBound 500 0 (fun _ => goodStep)).2 (by decide)).2 (fun _ => rfl)⟩

/-- In-range and identifier-carrying position returned by `indexOf` when the
identifier is present. -/
theorem indexOf_spec (l : List CClaimNsupports) (claimId : Chars)
    (h : ∃ c ∈ l, c.claim.claimId = claimId) :
    indexOf l claimId < l.length ∧
    ∃ c, l[indexOf l claimId]? = some c ∧ c.claim.claimId = claimId := by
  have hx : ∃ c ∈ l, (fun claimNsupports => claimNsupports.claim.claimId == claimId) c = true := by
    obtain ⟨c, hc, hid⟩ := h
    exact ⟨c, hc, by simpa using hid⟩
  have hlt : l.findIdx (fun claimNsupports => claimNsupports.claim.claimId == claimId) < l.length :=
    List.findIdx_lt_length_of_exists hx
  refine ⟨hlt, l[indexOf l claimId], List.getElem?_eq_getElem hlt, ?_⟩
  have := @List.findIdx_getElem CClaimNsupports
    (fun claimNsupports => claimNsupports.claim.claimId == claimId) l hlt
  simpa using this

/-- C8: the sequence order is a permutation of the bid order (the same k
claims, positions ranging over [0,k)), and for an identifier present in the
set, `indexOf` applied to either ordering returns a position whose claim
carries exactly that identifier. -/
theorem indexOf_roundTrip (claimsNsupports : List CClaimNsupports) (claimId : Chars)
    (hpresent : ∃ c ∈ claimsNsupports, c.claim.claimId = claimId) :
    (seqSort claimsNsupports).Perm claimsNsupports ∧
    indexOf claimsNsupports claimId < claimsNsupports.length ∧
    indexOf (seqSort claimsNsupports) claimId < claimsNsupports.length ∧
    (∃ c, claimsNsupports[indexOf claimsNsupports claimId]? = some c ∧
      c.claim.claimId = claimId) ∧
    (∃ c, (seqSort claimsNsupports)[indexOf (seqSort claimsNsupports) claimId]? = some c ∧
      c.claim.claimId = claimId) := by
  have hperm : (seqSort claimsNsupports).Perm claimsNsupports :=
    List.mergeSort_perm claimsNsupports _
  have hpresent' : ∃ c ∈ seqSort claimsNsupports, c.claim.claimId = claimId := by
    obtain ⟨c, hc, hid⟩ := hpresent
    exact ⟨c, hperm.mem_iff.mpr hc, hid⟩
  obtain ⟨hlt, hval⟩ := indexOf_spec claimsNsupports claimId hpresent
  obtain ⟨hlt', hval'⟩ := indexOf_spec (seqSort claimsNsupports) claimId hpresent'
  exact ⟨hperm, hlt, hperm.length_eq ▸ hlt', hval, hval'⟩

/-- C8, witness: the round-trip at a two-claim set and the identifier of its
second claim. -/
theorem indexOf_roundTrip_witness :
    (seqSort roundTripExample).Perm roundTripExample ∧
    indexOf roundTripExample ['e'] < roundTripExample.length ∧
    indexOf (seqSort roundTripExample) ['e'] < roundTripExample.length ∧
    (∃ c, roundTripExample[indexOf roundTripExample ['e']]? = some c ∧
      c.claim.claimId = ['e']) ∧
    (∃ c, (seqSort roundTripExample)[indexOf (seqSort roundTripExample) ['e']]? = some c ∧
      c.claim.claimId = ['e']) :=
  indexOf_roundTrip roundTripExample ['e'] (by decide)

/-- C9: the bid order is never re-sorted — the claims array of
`getclaimsforname` lists the claims in exactly the registry-received order,
reporting bid i at position i, while the sequence order is derived on a copy
(a permutation of the same list), leaving the input in place. -/
theorem getclaimsforname_bidOrder (claimsNsupports : List CClaimNsupports) :
    (getclaimsforname claimsNsupports).map (·.claimNsupports) = claimsNsupports ∧
    (getclaimsforname claimsNsupports).map (·.bid) = List.range claimsNsupports.length ∧
    (seqSort claimsNsupports).Perm claimsNsupports := by
  refine ⟨?_, ?_, List.mergeSort_perm claimsNsupports _⟩
  · simp only [getclaimsforname, List.map_map]
    exact List.enum_map_snd claimsNsupports
  · simp only [getclaimsforname, List.map_map]
    exact List.enum_map_fst claimsNsupports

/-- C7, counterexample: on a name with zero claims, bid index 0 is at the
claim count (out of range), yet `getclaimproofbybid` skips the bounds check
and issues a proof request with the engine-default predicate instead of
returning the empty result. -/
theorem outOfRange_counterexample :
    ([] : List CClaimNsupports).length ≤ (0 : Int).toNat ∧
    getclaimproofbybid [] 0 = .proofReq .engineDefault ∧
    getclaimproofbybid [] 0 ≠ .emptyArr ∧
    getclaimproofbybid [] 0 ≠ .rpcError := by
  refine ⟨by decide, by decide, by decide, by decide⟩

/-- C7, amended: for every non-negative index at or past the claim count,
`getclaimbybid` and `getclaimbyseq` return the empty object and
`getclaimproofbyseq` the empty array, none raising an error; the same holds
for `getclaimproofbybid` only for positive bids — bid 0 bypasses the bounds
check (see the C10 theorem). -/
theorem outOfRange_amended (claimsNsupports : List CClaimNsupports) (idx : Int)
    (hnonneg : 0 ≤ idx) (hoor : claimsNsupports.length ≤ idx.toNat) :
    getclaimbybid claimsNsupports idx = .emptyObj ∧
    getclaimbyseq claimsNsupports idx = .emptyObj ∧
    getclaimproofbyseq claimsNsupports idx = .emptyArr ∧
    (1 ≤ idx → getclaimproofbybid claimsNsupports idx = .emptyArr) := by
  have hneg : ¬ idx < 0 := by omega
  refine ⟨?_, ?_, ?_, ?_⟩
  · simp [getclaimbybid, hneg, hoor]
  · simp [getclaimbyseq, hneg, hoor]
  · simp [getclaimproofbyseq, hneg, hoor]
  · intro hpos
    have hz : ¬ idx = 0 := by omega
    simp [getclaimproofbybid, hneg, hz, hoor]

/-- C7, witness for the amended theorem: index 1 on a name with zero
claims. -/
theorem outOfRange_amended_witness :
    getclaimbybid [] 1 = .emptyObj ∧
    getclaimbyseq [] 1 = .emptyObj ∧
    getclaimproofbyseq [] 1 = .emptyArr ∧
    getclaimproofbybid [] 1 = .emptyArr := by
  obtain ⟨h1, h2, h3, h4⟩ := outOfRange_amended [] 1 (by decide) (by decide)
  exact ⟨h1, h2, h3, h4 (by decide)⟩

/-- C10: at bid index 0, `getclaimproofbybid` bypasses the bounds check — the
claim list is never consulted (the outcome is the same for every claim
list), the proof request carries the engine-default predicate, and the
out-of-range empty result is never produced, even for a name with zero
claims. -/
theorem getclaimproofbybid_bidZero (claimsNsupports : List CClaimNsupports) :
    getclaimproofbybid claimsNsupports 0 = .proofReq .engineDefault ∧
    (∀ other : List CClaimNsupports,
      getclaimproofbybid claimsNsupports 0 = getclaimproofbybid other 0) ∧
    getclaimproofbybid claimsNsupports 0 ≠ .emptyArr := by
  refine ⟨by simp [getclaimproofbybid], ?_, by simp [getclaimproofbybid]⟩
  intro other
  simp [getclaimproofbybid]

/-- C5: identifier validation rejects non-hex input, odd-length input,
input longer than 40 characters and (through `getclaimbyid`) input shorter
than 3 characters with the invalid-parameter error; the rejection is
decided before any index access — the outcome is the same against every
database. -/
theorem getclaimbyid_validation (input : Chars)
    (hrej : (¬ ∀ c ∈ input, isHexDigitChar c = true) ∨ input.length % 2 = 1 ∨
      40 < input.length ∨ input.length < 3) :
    ∀ db : DB, getclaimbyid db input = .error .invalidParameter := by
  intro db
  by_cases hhex : IsHexNumber input = true
  · have hfacts := hhex
    unfold IsHexNumber at hfacts
    simp only [Bool.and_eq_true, List.all_eq_true] at hfacts
    have hall : ∀ c ∈ input, isHexDigitChar c = true := hfacts.1.2
    have heven : input.length % 2 = 0 := by simpa using hfacts.2
    have hlen : 40 < input.length ∨ input.length < 3 := by
      rcases hrej with h | h | h | h
      · exact absurd hall h
      · omega
      · exact Or.inl h
      · exact Or.inr h
    rcases hlen with h40 | h3
    · simp [getclaimbyid, ParseClaimtrieId, hhex, h40]
    · have hn40 : ¬ (40 < input.length) := by omega
      simp [getclaimbyid, ParseClaimtrieId, hhex, hn40, h3]
  · have hhex' : IsHexNumber input = false := by
      simpa using hhex
    simp [getclaimbyid, ParseClaimtrieId, hhex']

/-- C5, witness: a one-character non-hex input is rejected against the empty
index. -/
theorem getclaimbyid_validation_witness :
    getclaimbyid [] ['z'] = .error .invalidParameter :=
  getclaimbyid_validation ['z'] (by decide) []

/-- With no name pinned, the scanning loop returns exactly the first
claim-index entry in iterator order whose key begins with the queried
digits. -/
theorem getClaimByIdScan_noName (db : DB) (pid : Chars) :
    (getClaimByIdScan db pid []).1 = (db.find? (entryMatch pid)).bind entryResult := by
  induction db with
  | nil => rfl
  | cons e rest ih =>
      cases e with
      | other =>
          rw [List.find?_cons_of_neg rest (by simp [entryMatch])]
          simpa [getClaimByIdScan] using ih
      | claimIndex key element =>
          by_cases hpre : startsWithChars key pid = true
          · rw [List.find?_cons_of_pos rest (by simp [entryMatch, hpre])]
            simp [getClaimByIdScan, hpre, entryResult]
          · rw [List.find?_cons_of_neg rest (by simp [entryMatch, hpre])]
            have hpre' : startsWithChars key pid = false := by simpa using hpre
            simpa [getClaimByIdScan, hpre'] using ih

/-- C6: for a partial identifier prefix of length at least 3 (with no name
pinned, as `getclaimbyid` calls it), the scan visits the identifier index
in order and returns the name and claim of the first entry whose identifier
begins with the prefix, terminating at that first accepted match; entries
under other names later in the index are skipped and no ambiguity error is
produced. -/
theorem getClaimByIdStr_firstMatch (db : DB) (pid : Chars) (h3 : 3 ≤ pid.length) :
    (getClaimByIdStr db pid []).1 = (db.find? (entryMatch pid)).bind entryResult := by
  have hne : pid.isEmpty = false := by
    cases pid with
    | nil => simp at h3
    | cons c cs => rfl
  unfold getClaimByIdStr
  rw [hne]
  simp only [Bool.false_eq_true, if_false]
  exact getClaimByIdScan_noName db pid

/-- C6, witness: with two entries under distinct names sharing the prefix
`abc`, the first one in index order (name `x`) wins. -/
theorem getClaimByIdStr_firstMatch_witness :
    (getClaimByIdStr ambiguousDb ['a', 'b', 'c'] []).1 =
      (ambiguousDb.find? (entryMatch ['a', 'b', 'c'])).bind entryResult ∧
    ((getClaimByIdStr ambiguousDb ['a', 'b', 'c'] []).1.map Prod.fst = some ['x']) :=
  ⟨getClaimByIdStr_firstMatch ambiguousDb ['a', 'b', 'c'] (by decide), by decide⟩

/-- A key that begins with a query of its own length equals the query. -/
theorem startsWithChars_eq (s p : Chars) (h : startsWithChars s p = true)
    (hl : s.length = p.length) : s = p := by
  induction s generalizing p with
  | nil =>
      cases p with
      | nil => rfl
      | cons q qs => simp at hl
  | cons c cs ih =>
      cases p with
      | nil => simp at hl
      | cons q qs =>
          simp only [startsWithChars, Bool.and_eq_true, beq_iff_eq] at h
          simp only [List.length_cons, Nat.succ.injEq] at hl
          rw [h.1, ih qs h.2 hl]

/-- Lowercase hex digits are fixed points of the case folding. -/
theorem hexCharLower_fixed (c : Char) (h : isLowerHexChar c = true) :
    hexCharLower c = c := by
  simp only [isLowerHexChar, Bool.or_eq_true, Bool.and_eq_true, decide_eq_true_eq] at h
  unfold hexCharLower
  rw [if_neg]
  omega

/-- Case folding fixes a string of lowercase hex digits. -/
theorem map_hexCharLower_fixed (s : Chars) (hlow : ∀ c ∈ s, isLowerHexChar c = true) :
    s.map hexCharLower = s := by
  induction s with
  | nil => rfl
  | cons c cs ih =>
      simp only [List.map_cons]
      rw [hexCharLower_fixed c (hlow c (List.mem_cons_self c cs)),
        ih (fun x hx => hlow x (List.mem_cons_of_mem c hx))]

/-- A 40-character lowercase hex string is its own canonical uint160 form. -/
theorem uint160S_fixed (s : Chars) (h40 : s.length = 40)
    (hlow : ∀ c ∈ s, isLowerHexChar c = true) : uint160S s = s := by
  simp [uint160S, h40, map_hexCharLower_fixed s hlow]

/-- A successful point read exhibits a claim-index entry under that key. -/
theorem dbRead_some_mem (db : DB) (key : Chars) (element : CClaimIndexElement)
    (h : dbRead db key = some element) : DBEntry.claimIndex key element ∈ db := by
  induction db with
  | nil => simp [dbRead] at h
  | cons e rest ih =>
      cases e with
      | other =>
          simp only [dbRead] at h
          exact List.mem_cons_of_mem _ (ih h)
      | claimIndex k el =>
          by_cases hk : (k == key) = true
          · simp only [dbRead, hk, if_true, Option.some.injEq] at h
            have : k = key := by simpa using hk
            rw [← this, ← h]
            exact List.mem_cons_self _ _
          · have hk' : (k == key) = false := by simpa using hk
            simp only [dbRead, hk', Bool.false_eq_true, if_false] at h
            exact List.mem_cons_of_mem _ (ih h)

/-- Against a well-formed index, once the point lookup under the canonical
form of a 40-character query has missed, the fallback scan finds nothing
either. -/
theorem scan_none_of_miss (db : DB) (id : Chars) (hwf : ClaimIndexWF db)
    (h40 : id.length = 40) (hread : dbRead db (uint160S id) = none) :
    (getClaimByIdScan db id []).1 = none := by
  induction db with
  | nil => rfl
  | cons e rest ih =>
      have hwfr : ClaimIndexWF rest := fun x hx => hwf x (List.mem_cons_of_mem _ hx)
      cases e with
      | other =>
          have hreadr : dbRead rest (uint160S id) = none := by simpa [dbRead] using hread
          simpa [getClaimByIdScan] using ih hwfr hreadr
      | claimIndex key element =>
          have hkey := hwf _ (List.mem_cons_self _ _)
          simp only [entryWF, Bool.and_eq_true, beq_iff_eq, List.all_eq_true] at hkey
          obtain ⟨⟨hkl, hcid⟩, hlow⟩ := hkey
          by_cases hpre : startsWithChars key id = true
          · exfalso
            have hkeq : key = id := startsWithChars_eq key id hpre (by omega)
            have hcanon : uint160S id = id :=
              uint160S_fixed id h40 (fun c hc => hlow c (by rw [hkeq]; exact hc))
            rw [hcanon] at hread
            simp [dbRead, hkeq] at hread
          · have hpre' : startsWithChars key id = false := by simpa using hpre
            have hscan :
                (getClaimByIdScan (DBEntry.claimIndex key element :: rest) id []).1 =
                  (getClaimByIdScan rest id []).1 := by
              simp [getClaimByIdScan, hpre']
            rw [hscan]
            apply ih hwfr
            by_cases hk : (key == uint160S id) = true
            · simp [dbRead, hk] at hread
            · have hk' : (key == uint160S id) = false := by simpa using hk
              simpa [dbRead, hk'] using hread

/-- C4, counterexample: resolving a valid 40-hex identifier that is absent
from the index is not a single point lookup — after the point read misses,
the full scan runs (here visiting the index's one entry). -/
theorem getclaimbyid_scan_counterexample :
    (getclaimbyidLookup pointDb absentId).pointReads = 1 ∧
    (getclaimbyidLookup pointDb absentId).scanVisited = 1 ∧
    (getclaimbyidLookup pointDb absentId).scanVisited ≠ 0 := by
  refine ⟨by decide, by decide, by decide⟩

/-- C4, amended: for a valid non-null 40-hex identifier against a
well-formed identifier index (every entry keyed by the canonical form of
its element's identifier), the final result always equals the point-lookup
result — a point-lookup hit is returned with no scan, and on a point-lookup
miss the fallback full scan that the code performs finds nothing. The
all-zero identifier must be excluded: the exact lookup refuses a null
identifier without reading the index, while the fallback scan does not, so
a well-formed entry keyed by the null identifier would be found by the scan
alone. -/
theorem getclaimbyid_exactLookup (db : DB) (id : Chars) (h40 : id.length = 40)
    (hwf : ClaimIndexWF db) (hnn : isNullUint160 (uint160S id) = false) :
    (getclaimbyidLookup db id).result = (getClaimById db (uint160S id)).1 ∧
    (∀ r, (getClaimById db (uint160S id)).1 = some r →
      (getclaimbyidLookup db id).scanVisited = 0) := by
  have h40' : (id.length == 40) = true := by simp [h40]
  cases hx : (getClaimById db (uint160S id)).1 with
  | some r =>
      constructor
      · simp [getclaimbyidLookup, h40', hx]
      · intro r' _
        simp [getclaimbyidLookup, h40', hx]
  | none =>
      have hread : dbRead db (uint160S id) = none := by
        cases hr : dbRead db (uint160S id) with
        | none => rfl
        | some element =>
            exfalso
            have hmem := dbRead_some_mem db (uint160S id) element hr
            have hwfe := hwf _ hmem
            simp only [entryWF, Bool.and_eq_true, beq_iff_eq] at hwfe
            have hcid : element.claim.claimId = uint160S id := hwfe.1.2
            have : (getClaimById db (uint160S id)).1 = some (element.name, element.claim) := by
              simp [getClaimById, hnn, hr, hcid]
            rw [hx] at this
            cases this
      have hscan := scan_none_of_miss db id hwf h40 hread
      have hne : id.isEmpty = false := by
        cases id with
        | nil => simp at h40
        | cons c cs => rfl
      constructor
      · simp [getclaimbyidLookup, h40', hx, getClaimByIdStr, hne, hscan]
      · intro r hr
        exact Option.noConfusion hr

/-- C4, witness for the amended theorem: a present identifier resolves by
the point lookup alone, with no scan. -/
theorem getclaimbyid_exactLookup_witness :
    (getclaimbyidLookup pointDb presentId).result =
      (getClaimById pointDb (uint160S presentId)).1 ∧
    (getclaimbyidLookup pointDb presentId).scanVisited = 0 := by
  obtain ⟨h1, h2⟩ := getclaimbyid_exactLookup pointDb presentId (by decide)
    (by unfold ClaimIndexWF; decide) (by decide)
  exact ⟨h1, h2 (['n'], ⟨presentId, ⟨1, 0⟩, 5, 3, 4⟩) (by decide)⟩

end Claimtrie
